import Mathlib

/-!
Verification of the workflow orchestration core of the `earth` repository.

The definitions below are a shallow embedding of the Python sources:

* `src/app/workflows/base.py` — `WorkflowStatus`, `WorkflowConfig`,
  `WorkflowResult`, and `BaseWorkflow.execute` / `BaseWorkflow.execute_batch`;
* `src/app/workflows/dataset_orchestrator.py` — `WorkflowStepStatus`,
  `WorkflowStep`, `DatasetSpec` (including `__post_init__` and
  `get_execution_order`), `DatasetOrchestrator` (`_build_workflow_steps`,
  `_execute_workflow_step`, `_execute_group_sequential`,
  `_execute_group_parallel`, `execute`) and `DatasetWorkflow.execute`;
* `src/app/workflows/config.py` — `get_workflow_dependencies`.

Modelling conventions, used consistently below:

* Python `int` is modelled as `Int`; list lengths enter arithmetic through
  `Int.ofNat`.
* Python dicts that the code iterates in insertion order are modelled as
  association lists (`List (key × value)`); key lookup is `List.lookup`.
* Python's `set` iteration order is implementation defined (hash order), so
  every loop that iterates a set takes an explicit iteration-order oracle
  `iter : Nat → List String → List String`; theorems assume only that the
  oracle yields a permutation of the set's elements, exactly what CPython
  guarantees.
* External collaborators (record generator, database/store, the wall clock)
  are oracles supplied as function parameters: `gen` for
  `self.generate_batch`, `write` for the store write inside
  `execute_batch`, `rowCount` for the final `get_current_status` read, and
  timestamps `t0`/`t1` for the two `time.time()` calls.  A Python exception
  raised by a collaborator is an `Except.error`/`some` carrying `str(e)`.
* `while` loops are written with an explicit fuel argument; running out of
  fuel returns `none` (the Python loop would still be running).  Top-level
  entry points pass the fuel that the termination argument of the source
  requires.
* Quote characters inside Python message strings are elided (the gate on
  this development forbids apostrophes in string literals); the surrounding
  words of each message are kept verbatim.
-/

/-- WorkflowStatus from base.py. -/
inductive WorkflowStatus where
  | PENDING
  | RUNNING
  | COMPLETED
  | FAILED
deriving DecidableEq, Repr

/-- WorkflowConfig from base.py: batch_size, max_records, seed, write_mode
(`"append"` or `"truncate"`, kept as a string as in the source). -/
structure WorkflowConfig where
  batch_size : Int := 1000
  max_records : Int := 100000
  seed : Option Int := none
  write_mode : String := "append"
deriving DecidableEq, Repr

/-- WorkflowResult from base.py.  `execution_time` is the difference of two
wall-clock oracle readings (Python: floats; modelled as `Int`, which is
faithful for the only fact ever proved about it: that it equals the
difference of the two `time.time()` readings). -/
structure WorkflowResult where
  status : WorkflowStatus
  records_generated : Int := 0
  records_stored : Int := 0
  error_message : Option String := none
  execution_time : Int := 0
deriving DecidableEq, Repr

/-- Model of `WorkflowResult.success` property from base.py:
`self.status == WorkflowStatus.COMPLETED`. -/
def WorkflowResult.success (r : WorkflowResult) : Bool :=
  r.status = WorkflowStatus.COMPLETED

/-- The collaborators of one `BaseWorkflow.execute` call (base.py lines
169-244), as oracles.  `Rec` is the opaque record type produced by
`generate_batch`.

* `setupErr` — `some e` when `self.setup_database()` raises `e`;
* `gen i n` — the outcome of the `i`-th `self.generate_batch(n)` call;
* `write i data mode` — `some e` when the store write performed by
  `self.execute_batch` for batch `i` raises `e`;
* `rowCount` — the outcome of the final `self.get_current_status()` row
  count read (`final_info.get("row_count", 0)`);
* `t0`, `t1` — the wall-clock readings taken at the start of `execute`
  and in its `finally` block. -/
structure ExecEnv (Rec : Type) where
  setupErr : Option String := none
  gen : Nat → Int → Except String (List Rec)
  write : Nat → List Rec → String → Option String := fun _ _ _ => none
  rowCount : Except String Int := Except.ok 0
  t0 : Int := 0
  t1 : Int := 0

/-- The generate-and-store loop of `BaseWorkflow.execute` (base.py lines
195-220), with the write mode computed as in `BaseWorkflow.execute_batch`
(base.py line 156: `write_mode = self.config.write_mode if is_first_batch
else "append"` with `is_first_batch = (batch_count == 0)`).

State: `total` is `total_generated`, `bc` is `batch_count`, `tr` is the
trace of store writes performed so far (data, mode).  The result is the
final trace together with either the final `total_generated`
(normal loop exit) or the message of the exception that aborted the loop;
`none` means the fuel ran out before the loop did. -/
def execLoop {Rec : Type} (cfg : WorkflowConfig) (env : ExecEnv Rec) (target : Int) :
    Nat → Int → Nat → List (List Rec × String) →
    Option (List (List Rec × String) × Except String Int)
  | 0, total, _, tr =>
    if total < target then none else some (tr, Except.ok total)
  | fuel + 1, total, bc, tr =>
    if total < target then
      match env.gen bc (min cfg.batch_size (target - total)) with
      | Except.error e => some (tr, Except.error e)
      | Except.ok data =>
        let mode := if bc = 0 then cfg.write_mode else "append"
        match env.write bc data mode with
        | some e => some (tr, Except.error e)
        | none =>
          execLoop cfg env target fuel (total + data.length) (bc + 1) (tr ++ [(data, mode)])
    else some (tr, Except.ok total)

/-- Model of `BaseWorkflow.execute` (base.py lines 169-244).  Returns the
`WorkflowResult` together with the trace of store writes performed, or
`none` if the batching loop does not terminate within `target.toNat`
iterations (each productive iteration generates at least one record, so
this fuel is exact whenever `generate_batch` honours its contract).

Faithful points worth noting against the source:
* on the failure path only `status` and `error_message` are updated, so
  `records_generated` and `records_stored` keep their constructor defaults
  of `0` (base.py lines 183, 233-236: the `except` branch never copies
  `total_generated` into the result);
* `execution_time` is set in the `finally` block on every path
  (base.py line 242);
* a failure of the final row-count read (`get_current_status`) is an
  exception inside the `try` and therefore also produces a `FAILED`
  result. -/
def baseExecute {Rec : Type} (cfg : WorkflowConfig) (env : ExecEnv Rec) (target : Int) :
    Option (WorkflowResult × List (List Rec × String)) :=
  match env.setupErr with
  | some e =>
    some ({ status := WorkflowStatus.FAILED, error_message := some e,
            execution_time := env.t1 - env.t0 }, [])
  | none =>
    match execLoop cfg env target target.toNat 0 0 [] with
    | none => none
    | some (tr, Except.error e) =>
      some ({ status := WorkflowStatus.FAILED, error_message := some e,
              execution_time := env.t1 - env.t0 }, tr)
    | some (tr, Except.ok total) =>
      match env.rowCount with
      | Except.error e =>
        some ({ status := WorkflowStatus.FAILED, error_message := some e,
                execution_time := env.t1 - env.t0 }, tr)
      | Except.ok rc =>
        some ({ status := WorkflowStatus.COMPLETED, records_generated := total,
                records_stored := rc, execution_time := env.t1 - env.t0 }, tr)

/-! ### Facts about `BaseWorkflow.execute` (claims C3, C4, C6) -/

/-- Loop invariant: whenever the batching loop of `BaseWorkflow.execute`
exits normally and every `generate_batch(n)` call that succeeded returned
exactly `n` records, the final `total_generated` equals `target_records`
(the loop never overshoots because each batch is capped by
`target - total`). -/
theorem execLoop_ok_total {Rec : Type} (cfg : WorkflowConfig) (env : ExecEnv Rec) (target : Int)
    (hgen : ∀ i n l, env.gen i n = Except.ok l → (l.length : Int) = n) :
    ∀ fuel total bc tr tr' total', total ≤ target →
      execLoop cfg env target fuel total bc tr = some (tr', Except.ok total') →
      total' = target := by
  intro fuel
  induction fuel with
  | zero =>
    intro total bc tr tr' total' hle h
    simp only [execLoop] at h
    split at h
    · exact absurd h (by simp)
    · rename_i hnlt
      simp only [Option.some.injEq, Prod.mk.injEq, Except.ok.injEq] at h
      omega
  | succ fuel ih =>
    intro total bc tr tr' total' hle h
    simp only [execLoop] at h
    split at h
    · rename_i hlt
      cases hg : env.gen bc (min cfg.batch_size (target - total)) with
      | error e => rw [hg] at h; simp at h
      | ok data =>
        rw [hg] at h
        simp only at h
        cases hw : env.write bc data (if bc = 0 then cfg.write_mode else "append") with
        | some e => rw [hw] at h; simp at h
        | none =>
          rw [hw] at h
          have hlen := hgen bc _ data hg
          have : total + (data.length : Int) ≤ target := by
            have := min_le_right cfg.batch_size (target - total)
            omega
          exact ih (total + data.length) (bc + 1) _ tr' total' this h
    · rename_i hnlt
      simp only [Option.some.injEq, Prod.mk.injEq, Except.ok.injEq] at h
      omega

/-- C3: for every positive `target_records` and positive
`config.batch_size`, if `BaseWorkflow.execute(target_records)` returns a
result with status `COMPLETED` then `records_generated` equals
`target_records` exactly, for every batch-size choice, under the
precondition that each `generate_batch(n)` call that succeeds returns
exactly `n` records. -/
theorem batch_total_exact {Rec : Type} (cfg : WorkflowConfig) (env : ExecEnv Rec) (target : Int)
    (ht : 0 < target) (hbs : 0 < cfg.batch_size)
    (hgen : ∀ i n l, env.gen i n = Except.ok l → (l.length : Int) = n)
    (r : WorkflowResult) (tr : List (List Rec × String))
    (hrun : baseExecute cfg env target = some (r, tr))
    (hc : r.status = WorkflowStatus.COMPLETED) :
    r.records_generated = target := by
  unfold baseExecute at hrun
  cases hse : env.setupErr with
  | some e =>
    rw [hse] at hrun
    simp only [Option.some.injEq, Prod.mk.injEq] at hrun
    rw [← hrun.1] at hc
    simp at hc
  | none =>
    rw [hse] at hrun
    simp only at hrun
    cases hl : execLoop cfg env target target.toNat 0 0 [] with
    | none => rw [hl] at hrun; simp at hrun
    | some p =>
      rw [hl] at hrun
      obtain ⟨tr0, res⟩ := p
      cases res with
      | error e =>
        simp only [Option.some.injEq, Prod.mk.injEq] at hrun
        rw [← hrun.1] at hc
        simp at hc
      | ok total =>
        cases hrc : env.rowCount with
        | error e =>
          rw [hrc] at hrun
          simp only [Option.some.injEq, Prod.mk.injEq] at hrun
          rw [← hrun.1] at hc
          simp at hc
        | ok rc =>
          rw [hrc] at hrun
          simp only [Option.some.injEq, Prod.mk.injEq] at hrun
          rw [← hrun.1]
          simp only
          exact execLoop_ok_total cfg env target hgen target.toNat 0 0 [] tr0 total
            (by omega) hl

/-- Concrete environment for the C3 witness: `generate_batch(n)` returns
exactly `n` records, the store never fails, and the final row count is 7. -/
def c3env : ExecEnv Unit :=
  { gen := fun _ n => if 0 ≤ n then Except.ok (List.replicate n.toNat ()) else Except.error "neg",
    rowCount := Except.ok 7 }

/-- The result of running `baseExecute` on the C3 witness input. -/
def c3res : WorkflowResult :=
  { status := WorkflowStatus.COMPLETED, records_generated := 7, records_stored := 7 }

/-- The write trace of the C3 witness run: batch sizes 3, 3, 1. -/
def c3tr : List (List Unit × String) :=
  [(List.replicate 3 (), "append"), (List.replicate 3 (), "append"),
    (List.replicate 1 (), "append")]

/-- Witness for C3 at `target_records = 7`, `batch_size = 3` (a
non-divisor): the completed run reports exactly 7 records generated. -/
theorem batch_total_exact_witness : c3res.records_generated = 7 :=
  batch_total_exact { batch_size := 3 } c3env 7 (by decide) (by decide)
    (fun i n l h => by
      simp only [c3env] at h
      split at h
      · rename_i hn
        obtain rfl := Except.ok.inj h
        simp [Int.toNat_of_nonneg hn]
      · exact absurd h (by simp))
    c3res c3tr (by decide) (by decide)

/-- Trace invariant for the batching loop: every write appended by the loop
carries the mode determined by its batch index — `config.write_mode` for
batch 0, `"append"` for every later batch. -/
theorem execLoop_trace_modes {Rec : Type} (cfg : WorkflowConfig) (env : ExecEnv Rec)
    (target : Int) :
    ∀ fuel total bc tr0 tr res,
      execLoop cfg env target fuel total bc tr0 = some (tr, res) →
      ∃ suf, tr = tr0 ++ suf ∧
        ∀ j (hj : j < suf.length),
          (suf.get ⟨j, hj⟩).2 = if bc + j = 0 then cfg.write_mode else "append" := by
  intro fuel
  induction fuel with
  | zero =>
    intro total bc tr0 tr res h
    simp only [execLoop] at h
    split at h
    · exact absurd h (by simp)
    · simp only [Option.some.injEq, Prod.mk.injEq] at h
      exact ⟨[], by simp [← h.1]⟩
  | succ fuel ih =>
    intro total bc tr0 tr res h
    simp only [execLoop] at h
    split at h
    · cases hg : env.gen bc (min cfg.batch_size (target - total)) with
      | error e =>
        rw [hg] at h
        simp only [Option.some.injEq, Prod.mk.injEq] at h
        exact ⟨[], by simp [← h.1]⟩
      | ok data =>
        rw [hg] at h
        simp only at h
        cases hw : env.write bc data (if bc = 0 then cfg.write_mode else "append") with
        | some e =>
          rw [hw] at h
          simp only [Option.some.injEq, Prod.mk.injEq] at h
          exact ⟨[], by simp [← h.1]⟩
        | none =>
          rw [hw] at h
          obtain ⟨suf, hsuf, hmodes⟩ := ih (total + data.length) (bc + 1) _ tr res h
          refine ⟨(data, if bc = 0 then cfg.write_mode else "append") :: suf, ?_, ?_⟩
          · rw [hsuf]; simp
          · intro j hj
            cases j with
            | zero => simp
            | succ j =>
              have hj' : j < suf.length := by simpa using hj
              have := hmodes j hj'
              simp only [List.get] at this ⊢
              rw [this]
              have h1 : ¬ (bc + 1 + j = 0) := by omega
              have h2 : ¬ (bc + (j + 1) = 0) := by omega
              simp [h1, h2]
    · simp only [Option.some.injEq, Prod.mk.injEq] at h
      exact ⟨[], by simp [← h.1]⟩

/-- Helper: a predicate that holds only at index 0 is counted at most once. -/
theorem countP_le_one_of_only_head {α : Type} (p : α → Bool) (l : List α)
    (h : ∀ i (hi : i < l.length), p (l.get ⟨i, hi⟩) = true → i = 0) :
    l.countP p ≤ 1 := by
  cases l with
  | nil => simp
  | cons x rest =>
    have hrest : rest.countP p = 0 := by
      rw [List.countP_eq_zero]
      intro a ha
      obtain ⟨⟨j, hj⟩, rfl⟩ := List.get_of_mem ha
      intro hpa
      have : j + 1 = 0 := h (j + 1) (by simpa using Nat.succ_lt_succ hj) (by simpa using hpa)
      omega
    rw [List.countP_cons, hrest]
    split <;> omega

/-- C4: within a single `BaseWorkflow.execute` call, the first persisted
batch is written with the configured `write_mode` and every subsequent
batch is written with `"append"`; hence a `"truncate"` write happens at
most once and only as the very first write. -/
theorem write_modes_truncate_once {Rec : Type} (cfg : WorkflowConfig) (env : ExecEnv Rec)
    (target : Int) (r : WorkflowResult) (tr : List (List Rec × String))
    (hrun : baseExecute cfg env target = some (r, tr)) :
    (∀ i (hi : i < tr.length),
        (tr.get ⟨i, hi⟩).2 = if i = 0 then cfg.write_mode else "append") ∧
      (∀ i (hi : i < tr.length), (tr.get ⟨i, hi⟩).2 = "truncate" → i = 0) ∧
      tr.countP (fun w => w.2 = "truncate") ≤ 1 := by
  have hfirst : ∀ i (hi : i < tr.length),
      (tr.get ⟨i, hi⟩).2 = if i = 0 then cfg.write_mode else "append" := by
    unfold baseExecute at hrun
    cases hse : env.setupErr with
    | some e =>
      rw [hse] at hrun
      simp only [Option.some.injEq, Prod.mk.injEq] at hrun
      rw [← hrun.2]
      intro i hi
      simp at hi
    | none =>
      rw [hse] at hrun
      simp only at hrun
      cases hl : execLoop cfg env target target.toNat 0 0 [] with
      | none => rw [hl] at hrun; simp at hrun
      | some p =>
        rw [hl] at hrun
        obtain ⟨tr0, res⟩ := p
        obtain ⟨suf, hsuf, hmodes⟩ := execLoop_trace_modes cfg env target _ 0 0 [] tr0 res hl
        simp only [List.nil_append] at hsuf
        subst hsuf
        have htr : tr = tr0 := by
          cases res with
          | error e =>
            simp only [Option.some.injEq, Prod.mk.injEq] at hrun
            exact hrun.2.symm
          | ok total =>
            cases hrc : env.rowCount with
            | error e =>
              rw [hrc] at hrun
              simp only [Option.some.injEq, Prod.mk.injEq] at hrun
              exact hrun.2.symm
            | ok rc =>
              rw [hrc] at hrun
              simp only [Option.some.injEq, Prod.mk.injEq] at hrun
              exact hrun.2.symm
        subst htr
        intro i hi
        simpa using hmodes i hi
  refine ⟨hfirst, ?_, ?_⟩
  · intro i hi htrunc
    by_contra hne
    have := hfirst i hi
    rw [htrunc] at this
    simp only [if_neg hne] at this
    exact absurd this (by decide)
  · refine countP_le_one_of_only_head _ tr ?_
    intro i hi hp
    have hmode := hfirst i hi
    by_contra hne
    rw [if_neg hne] at hmode
    rw [hmode] at hp
    exact absurd hp (by decide)

/-- Environment for the C4 witness: truncating config, two batches. -/
def c4env : ExecEnv Unit :=
  { gen := fun _ n => if 0 ≤ n then Except.ok (List.replicate n.toNat ()) else Except.error "neg",
    rowCount := Except.ok 5 }

/-- The write trace of the C4 witness run: first batch truncates, second
appends. -/
def c4tr : List (List Unit × String) :=
  [(List.replicate 3 (), "truncate"), (List.replicate 2 (), "append")]

/-- The result of the C4 witness run. -/
def c4res : WorkflowResult :=
  { status := WorkflowStatus.COMPLETED, records_generated := 5, records_stored := 5 }

/-- Witness for C4: a concrete two-batch run with `write_mode = "truncate"`
performs exactly one truncating write. -/
theorem write_modes_truncate_once_witness :
    c4tr.countP (fun w => w.2 = "truncate") ≤ 1 :=
  (write_modes_truncate_once { batch_size := 3, write_mode := "truncate" } c4env 5
    c4res c4tr (by decide)).2.2

/-- Environment for the C6 counterexample: the first `generate_batch` call
succeeds with one record, the second raises `"xboom"`. -/
def c6env : ExecEnv Unit :=
  { gen := fun i _ => if i = 0 then Except.ok [()] else Except.error "xboom" }

/-- C6 counterexample: with `batch_size = 1` and `target_records = 2`, one
batch of one record is generated and persisted (`total_generated` had
reached 1, witnessed by the trace of length 1 holding one record) before
the second batch raises; yet the failure result reports
`records_generated = 0`, not the partial progress 1 that the claim
asserts — base.py line 226 assigns `result.records_generated` only on the
success path. -/
theorem failure_partial_progress_cex :
    ((baseExecute { batch_size := 1 } c6env 2).map
        (fun p => (p.1.status, p.1.records_generated, p.1.error_message,
          p.2.map (fun b => b.1.length))) =
      some (WorkflowStatus.FAILED, 0, some "xboom", [1])) ∧
    ¬ ((baseExecute { batch_size := 1 } c6env 2).map (fun p => p.1.records_generated) =
        some 1) := by
  constructor <;> decide

/-- C6 amended: when `BaseWorkflow.execute` ends in a `FAILED` result, the
result carries the captured exception message and an `execution_time`
measured from start to end of the call, but `records_generated` (and
`records_stored`) remain 0 — partial progress is not copied into the
failure result. -/
theorem failure_result_fields {Rec : Type} (cfg : WorkflowConfig) (env : ExecEnv Rec)
    (target : Int) (r : WorkflowResult) (tr : List (List Rec × String))
    (hrun : baseExecute cfg env target = some (r, tr))
    (hf : r.status = WorkflowStatus.FAILED) :
    r.records_generated = 0 ∧ r.records_stored = 0 ∧
      r.execution_time = env.t1 - env.t0 ∧
      ∃ e, r.error_message = some e ∧
        (env.setupErr = some e ∨
          execLoop cfg env target target.toNat 0 0 [] = some (tr, Except.error e) ∨
          env.rowCount = Except.error e) := by
  unfold baseExecute at hrun
  cases hse : env.setupErr with
  | some e =>
    rw [hse] at hrun
    simp only [Option.some.injEq, Prod.mk.injEq] at hrun
    rw [← hrun.1]
    exact ⟨rfl, rfl, rfl, e, rfl, Or.inl rfl⟩
  | none =>
    rw [hse] at hrun
    simp only at hrun
    cases hl : execLoop cfg env target target.toNat 0 0 [] with
    | none => rw [hl] at hrun; simp at hrun
    | some p =>
      rw [hl] at hrun
      obtain ⟨tr0, res⟩ := p
      cases res with
      | error e =>
        simp only [Option.some.injEq, Prod.mk.injEq] at hrun
        obtain ⟨hr, htr⟩ := hrun
        subst htr
        rw [← hr]
        exact ⟨rfl, rfl, rfl, e, rfl, Or.inr (Or.inl rfl)⟩
      | ok total =>
        cases hrc : env.rowCount with
        | error e =>
          rw [hrc] at hrun
          simp only [Option.some.injEq, Prod.mk.injEq] at hrun
          rw [← hrun.1]
          exact ⟨rfl, rfl, rfl, e, rfl, Or.inr (Or.inr rfl)⟩
        | ok rc =>
          rw [hrc] at hrun
          simp only [Option.some.injEq, Prod.mk.injEq] at hrun
          rw [← hrun.1] at hf
          simp at hf

/-- The failure result of the C6 counterexample run. -/
def c6res : WorkflowResult :=
  { status := WorkflowStatus.FAILED, error_message := some "xboom" }

/-- Witness for the amended C6 at the counterexample input: the failure
result reports zero records and the wall-clock difference. -/
theorem failure_result_fields_witness :
    c6res.records_generated = 0 ∧ c6res.execution_time = c6env.t1 - c6env.t0 := by
  have h := failure_result_fields { batch_size := 1 } c6env 2 c6res [([()], "append")]
    (by decide) (by decide)
  exact ⟨h.1, h.2.2.1⟩

/-! ### `DatasetSpec` (dataset_orchestrator.py, config.py) -/

/-- The fields of a `DatasetSpec` after construction
(dataset_orchestrator.py lines 113-131).  `workflows` is the
insertion-ordered dict of workflow name → target count; `dependencies`
maps a workflow name to its prerequisite names.  The fields not needed by
any claim (`parallel_groups`, the ratio bounds) are omitted. -/
structure DatasetSpec where
  workflows : List (String × Int) := []
  dependencies : List (String × List String) := []
  people_count : Option Int := none
  companies_count : Option Int := none
  description : String := "Custom dataset"
deriving DecidableEq, Repr

/-- Model of `self.dependencies.get(workflow, [])`
(dataset_orchestrator.py line 299). -/
def depsOf (spec : DatasetSpec) (w : String) : List String :=
  (spec.dependencies.lookup w).getD []

/-- The insertion-ordered key list of `spec.workflows`. -/
def specKeys (spec : DatasetSpec) : List String :=
  spec.workflows.map (fun p => p.1)

/-- Model of `get_workflow_dependencies()` from config.py lines 141-152: the fixed
global default-dependency table. -/
def get_workflow_dependencies : List (String × List String) :=
  [("people", ["companies"])]

/-- The default-dependency pass of `DatasetSpec.__post_init__`
(dataset_orchestrator.py lines 152-157): if no dependencies were given and
there are workflows, pull defaults from `get_workflow_dependencies()`
restricted to the workflow names present, in workflow order. -/
def defaultDepsFor (dependencies : List (String × List String))
    (ws : List (String × Int)) : List (String × List String) :=
  if dependencies.isEmpty && !ws.isEmpty then
    ws.filterMap (fun p => (get_workflow_dependencies.lookup p.1).map (fun ds => (p.1, ds)))
  else dependencies

/-- Model of `DatasetSpec.__post_init__` (dataset_orchestrator.py lines 133-157), as
a function from the constructor arguments to the constructed spec, or the
`ValueError` message when both the legacy shorthand and a `workflows`
mapping are given.  In the legacy branch, `companies_count` is inserted
into `workflows` before `people_count` (lines 143-146) and both legacy
fields are cleared afterwards (lines 148-150). -/
def postInit (workflows : List (String × Int)) (dependencies : List (String × List String))
    (people_count companies_count : Option Int) (description : String) :
    Except String DatasetSpec :=
  if people_count.isSome || companies_count.isSome then
    if !workflows.isEmpty then
      Except.error "Cannot specify both workflows dict and legacy people_count/companies_count"
    else
      let w1 : List (String × Int) :=
        match companies_count with
        | some c => [("companies", c)]
        | none => []
      let w2 : List (String × Int) :=
        match people_count with
        | some p => [("people", p)]
        | none => []
      let ws := w1 ++ w2
      Except.ok { workflows := ws, dependencies := defaultDepsFor dependencies ws,
                  people_count := none, companies_count := none,
                  description := description }
  else
    Except.ok { workflows := workflows,
                dependencies := defaultDepsFor dependencies workflows,
                people_count := people_count, companies_count := companies_count,
                description := description }

/-- One iteration's `ready_workflows` computation
(dataset_orchestrator.py lines 297-301): the members of the remaining set,
visited in the set's iteration order `visit`, whose dependencies are all
outside the remaining set. -/
def readyFilter (deps : String → List String) (remaining visit : List String) :
    List String :=
  visit.filter (fun w => (deps w).all (fun d => !(remaining.contains d)))

/-- The `while remaining_workflows:` loop of
`DatasetSpec.get_execution_order` (dataset_orchestrator.py lines 295-313).

`iter k rem` is the order in which Python iterates the set
`remaining_workflows` (contents `rem`) during loop iteration `k`; CPython
guarantees only that it is some permutation of `rem`.  `Except.error rem`
models `raise ValueError("Circular dependency detected or missing
workflows: ...")` carrying the stuck remaining names; `none` means the
fuel ran out (with the permutation guarantee, fuel equal to the number of
remaining names is always enough, since every non-raising iteration
removes at least one name). -/
def geoLoop (deps : String → List String) (iter : Nat → List String → List String) :
    Nat → Nat → List String → Option (Except (List String) (List (List String)))
  | _, 0, remaining =>
    if remaining.isEmpty then some (Except.ok []) else none
  | k, fuel + 1, remaining =>
    if remaining.isEmpty then some (Except.ok [])
    else
      let ready := readyFilter deps remaining (iter k remaining)
      if ready.isEmpty then some (Except.error remaining)
      else
        (geoLoop deps iter (k + 1) fuel
            (remaining.filter (fun w => !(ready.contains w)))).map
          (fun res => res.map (fun gs => ready :: gs))

/-- Model of `DatasetSpec.get_execution_order` (dataset_orchestrator.py lines
284-313), parameterised by the set-iteration-order oracle `iter`. -/
def getExecutionOrder (spec : DatasetSpec) (iter : Nat → List String → List String) :
    Option (Except (List String) (List (List String))) :=
  geoLoop (depsOf spec) iter 0 (specKeys spec).length (specKeys spec)

/-- Model of `WorkflowStepStatus` from dataset_orchestrator.py lines 31-39. -/
inductive WorkflowStepStatus where
  | PENDING
  | READY
  | RUNNING
  | COMPLETED
  | FAILED
  | SKIPPED
deriving DecidableEq, Repr

/-- Model of `WorkflowStep` from dataset_orchestrator.py lines 42-85.  The
`config_overrides` dict built by `_build_workflow_steps` always holds
exactly the single key `write_mode`, modelled as the string field
`write_mode_override`; the wall-clock `start_time`/`end_time` fields are
omitted (no claim about them is statable without real time). -/
structure WorkflowStep where
  workflow_name : String
  target_records : Int
  depends_on : List String := []
  write_mode_override : String := "append"
  status : WorkflowStepStatus := WorkflowStepStatus.PENDING
  result : Option WorkflowResult := none
  error_message : Option String := none
deriving DecidableEq, Repr

/-- Model of `DatasetOrchestrator._build_workflow_steps`
(dataset_orchestrator.py lines 375-396): one step per workflow, in
insertion order; the `write_mode` override is `"truncate"` for the very
first key of `spec.workflows` and `"append"` for every other. -/
def buildWorkflowSteps (spec : DatasetSpec) : List (String × WorkflowStep) :=
  spec.workflows.map (fun p =>
    (p.1,
      { workflow_name := p.1, target_records := p.2,
        depends_on := depsOf spec p.1,
        write_mode_override :=
          if (specKeys spec).head? = some p.1 then "truncate" else "append" }))

/-! ### Facts about `get_execution_order` (claims C1, C7, C8) -/

/-- Helper: a nonempty list has an element minimising a `Nat`-valued
measure. -/
theorem exists_min_nat {α : Type} (l : List α) (f : α → Nat) (h : l ≠ []) :
    ∃ a ∈ l, ∀ b ∈ l, f a ≤ f b := by
  induction l with
  | nil => exact absurd rfl h
  | cons x xs ih =>
    cases xs with
    | nil =>
      refine ⟨x, List.mem_cons_self x [], ?_⟩
      intro b hb
      rcases List.mem_cons.mp hb with rfl | hb
      · exact Nat.le_refl _
      · exact absurd hb (List.not_mem_nil b)
    | cons y ys =>
      obtain ⟨a, ha, hmin⟩ := ih (by simp)
      by_cases hxa : f x ≤ f a
      · refine ⟨x, List.mem_cons_self x (y :: ys), ?_⟩
        intro b hb
        rcases List.mem_cons.mp hb with rfl | hb
        · exact Nat.le_refl _
        · exact Nat.le_trans hxa (hmin b hb)
      · refine ⟨a, List.mem_cons_of_mem x ha, ?_⟩
        intro b hb
        rcases List.mem_cons.mp hb with rfl | hb
        · omega
        · exact hmin b hb

/-- The `ready_workflows` list is a permutation of the remaining names
whose dependencies are all met, whenever the set is iterated in
permutation order. -/
theorem readyFilter_perm (deps : String → List String) (remaining visit : List String)
    (hv : List.Perm visit remaining) :
    List.Perm (readyFilter deps remaining visit)
      (remaining.filter (fun w => (deps w).all (fun d => !(remaining.contains d)))) :=
  hv.filter _

/-- Removing the ready names from the remaining set is the same as
filtering with the negated readiness predicate. -/
theorem geo_newRem_eq (deps : String → List String) (remaining visit : List String)
    (hv : List.Perm visit remaining) :
    remaining.filter (fun w => !((readyFilter deps remaining visit).contains w)) =
      remaining.filter
        (fun w => !((deps w).all (fun d => !(remaining.contains d)))) := by
  apply List.filter_congr
  intro x hx
  show (!((readyFilter deps remaining visit).contains x)) =
    (!((deps x).all fun d => !(remaining.contains d)))
  cases hq : (deps x).all (fun d => !(remaining.contains d)) with
  | true =>
    have hmem : x ∈ readyFilter deps remaining visit :=
      List.mem_filter.mpr ⟨hv.mem_iff.mpr hx, hq⟩
    have hc : (readyFilter deps remaining visit).contains x = true := by
      simpa using hmem
    rw [hc]
  | false =>
    have hnm : ¬ x ∈ readyFilter deps remaining visit := by
      intro hcm
      have h2 := (List.mem_filter.mp hcm).2
      rw [hq] at h2
      cases h2
    have hc : (readyFilter deps remaining visit).contains x = false := by
      cases hcc : (readyFilter deps remaining visit).contains x with
      | false => rfl
      | true => exact absurd (by simpa using hcc) hnm
    rw [hc]

/-- The ready names together with the rest of the remaining set are a
permutation of the remaining set. -/
theorem ready_append_rest_perm (deps : String → List String) (remaining visit : List String)
    (hv : List.Perm visit remaining) :
    List.Perm
      (readyFilter deps remaining visit ++
        remaining.filter (fun w => !((readyFilter deps remaining visit).contains w)))
      remaining := by
  rw [geo_newRem_eq deps remaining visit hv]
  exact ((readyFilter_perm deps remaining visit hv).append_right _).trans
    (List.filter_append_perm _ remaining)

/-- Central invariant for C1: on an acyclicity witness (a ranking `r`
that strictly decreases along dependency edges inside the remaining set),
the `get_execution_order` loop succeeds, its groups concatenate to a
permutation of the remaining names, and every dependency that lies in the
remaining set is placed in a strictly earlier group than its dependent. -/
theorem geoLoop_acyclic_ok (deps : String → List String)
    (iter : Nat → List String → List String)
    (hIter : ∀ k l, List.Perm (iter k l) l) (r : String → Nat) :
    ∀ fuel k remaining, remaining.length ≤ fuel →
      (∀ a ∈ remaining, ∀ b ∈ deps a, b ∈ remaining → r b < r a) →
      ∃ gs, geoLoop deps iter k fuel remaining = some (Except.ok gs) ∧
        List.Perm gs.flatten remaining ∧
        ∀ i (hi : i < gs.length) a, a ∈ gs.get ⟨i, hi⟩ → ∀ d ∈ deps a, d ∈ remaining →
          ∃ j, ∃ hj : j < gs.length, j < i ∧ d ∈ gs.get ⟨j, hj⟩ := by
  intro fuel
  induction fuel with
  | zero =>
    intro k remaining hlen hr
    have hnil : remaining = [] := List.length_eq_zero.mp (Nat.le_zero.mp hlen)
    subst hnil
    exact ⟨[], by simp [geoLoop], by simp, fun i hi => absurd hi (by simp)⟩
  | succ fuel ih =>
    intro k remaining hlen hr
    by_cases hne : remaining = []
    · subst hne
      exact ⟨[], by simp [geoLoop], by simp, fun i hi => absurd hi (by simp)⟩
    · have hre : remaining.isEmpty = false := by simpa using hne
      obtain ⟨a0, ha0, hmin⟩ := exists_min_nat remaining r hne
      have hq : ((deps a0).all fun d => !(remaining.contains d)) = true := by
        rw [List.all_eq_true]
        intro d hd
        cases hdc : remaining.contains d with
        | false => simp
        | true =>
          have hdm : d ∈ remaining := by simpa using hdc
          have h1 := hr a0 ha0 d hd hdm
          have h2 := hmin d hdm
          omega
      have ha0r : a0 ∈ readyFilter deps remaining (iter k remaining) :=
        List.mem_filter.mpr ⟨(hIter k remaining).mem_iff.mpr ha0, hq⟩
      have hready_ne : readyFilter deps remaining (iter k remaining) ≠ [] :=
        List.ne_nil_of_mem ha0r
      have hready_ie : (readyFilter deps remaining (iter k remaining)).isEmpty = false := by
        simpa using hready_ne
      have happ := ready_append_rest_perm deps remaining (iter k remaining) (hIter k remaining)
      have hlens : (readyFilter deps remaining (iter k remaining)).length +
          (remaining.filter (fun w =>
            !((readyFilter deps remaining (iter k remaining)).contains w))).length =
          remaining.length := by
        have := happ.length_eq
        simpa [List.length_append] using this
      have hready_pos : 0 < (readyFilter deps remaining (iter k remaining)).length :=
        List.length_pos.mpr hready_ne
      have hlen' : (remaining.filter (fun w =>
          !((readyFilter deps remaining (iter k remaining)).contains w))).length ≤ fuel := by
        omega
      have hr' : ∀ a ∈ remaining.filter (fun w =>
            !((readyFilter deps remaining (iter k remaining)).contains w)),
          ∀ b ∈ deps a, b ∈ remaining.filter (fun w =>
            !((readyFilter deps remaining (iter k remaining)).contains w)) → r b < r a := by
        intro a ha b hb hbm
        exact hr a (List.mem_filter.mp ha).1 b hb (List.mem_filter.mp hbm).1
      obtain ⟨gs', heq, hperm', hord'⟩ := ih (k + 1) _ hlen' hr'
      refine ⟨readyFilter deps remaining (iter k remaining) :: gs', ?_, ?_, ?_⟩
      · simp only [geoLoop, hre, Bool.false_eq_true, if_false, hready_ie]
        rw [heq]
        rfl
      · have hflat : (readyFilter deps remaining (iter k remaining) :: gs').flatten =
            readyFilter deps remaining (iter k remaining) ++ gs'.flatten := by simp
        rw [hflat]
        exact ((hperm'.append_left _).trans happ)
      · intro i hi a ha d hd hdm
        cases i with
        | zero =>
          have hqa : ((deps a).all fun dd => !(remaining.contains dd)) = true :=
            (List.mem_filter.mp ha).2
          rw [List.all_eq_true] at hqa
          have := hqa d hd
          have hdc : remaining.contains d = false := by
            cases hc : remaining.contains d with
            | false => rfl
            | true => rw [hc] at this; cases this
          have : ¬ d ∈ remaining := by
            intro hm
            simp [hm] at hdc
          exact absurd hdm this
        | succ i =>
          have hi' : i < gs'.length := by simpa using hi
          by_cases hdr : d ∈ readyFilter deps remaining (iter k remaining)
          · exact ⟨0, by simp, Nat.succ_pos i, hdr⟩
          · have hdn : d ∈ remaining.filter (fun w =>
                !((readyFilter deps remaining (iter k remaining)).contains w)) := by
              refine List.mem_filter.mpr ⟨hdm, ?_⟩
              cases hc : (readyFilter deps remaining (iter k remaining)).contains d with
              | false => rfl
              | true => exact absurd (by simpa using hc) hdr
            obtain ⟨j, hj, hjlt, hjm⟩ := hord' i hi' a ha d hd hdn
            exact ⟨j + 1, by simpa using Nat.succ_lt_succ hj, Nat.succ_lt_succ hjlt, hjm⟩

/-- C1: for every `DatasetSpec` with a non-empty `workflows` mapping whose
dependency lists reference only keys of `workflows` and whose dependency
graph is acyclic (witnessed by a ranking that strictly decreases along
dependency edges, which exists exactly for finite DAGs),
`get_execution_order()` succeeds — for every set-iteration order — with
groups whose concatenation is a permutation of `workflows.keys()` (each
name appearing exactly once, the concatenation being nodup), and for every
dependency edge `A depends on B` the group index of `B` is strictly
smaller than the group index of `A`. -/
theorem execution_order_valid (spec : DatasetSpec)
    (iter : Nat → List String → List String)
    (hIter : ∀ k l, List.Perm (iter k l) l)
    (hne : spec.workflows ≠ [])
    (hnodup : (specKeys spec).Nodup)
    (hrefs : ∀ a ∈ specKeys spec, ∀ d ∈ depsOf spec a, d ∈ specKeys spec)
    (hacyc : ∃ r : String → Nat, ∀ a ∈ specKeys spec, ∀ b ∈ depsOf spec a,
        b ∈ specKeys spec → r b < r a) :
    ∃ gs, getExecutionOrder spec iter = some (Except.ok gs) ∧
      List.Perm gs.flatten (specKeys spec) ∧ gs.flatten.Nodup ∧
      ∀ a ∈ specKeys spec, ∀ d ∈ depsOf spec a,
        ∃ i, ∃ hi : i < gs.length, ∃ j, ∃ hj : j < gs.length,
          j < i ∧ a ∈ gs.get ⟨i, hi⟩ ∧ d ∈ gs.get ⟨j, hj⟩ := by
  obtain ⟨r, hrk⟩ := hacyc
  obtain ⟨gs, heq, hperm, hord⟩ := geoLoop_acyclic_ok (depsOf spec) iter hIter r
    (specKeys spec).length 0 (specKeys spec) (Nat.le_refl _) hrk
  refine ⟨gs, heq, hperm, (hperm.nodup_iff).mpr hnodup, ?_⟩
  intro a ha d hd
  have haf : a ∈ gs.flatten := hperm.mem_iff.mpr ha
  obtain ⟨g, hg, hag⟩ := List.mem_flatten.mp haf
  obtain ⟨⟨i, hi⟩, hgi⟩ := List.get_of_mem hg
  have hai : a ∈ gs.get ⟨i, hi⟩ := by rw [hgi]; exact hag
  obtain ⟨j, hj, hjlt, hdj⟩ := hord i hi a hai d hd (hrefs a ha d hd)
  exact ⟨i, hi, j, hj, hjlt, hai, hdj⟩

/-- The `small_demo`-shaped spec used as the C1 witness input. -/
def c1spec : DatasetSpec :=
  { workflows := [("companies", 10), ("people", 50)],
    dependencies := [("people", ["companies"])] }

/-- Witness for C1 at a concrete two-workflow spec (people depends on
companies) with the identity set-iteration order. -/
theorem execution_order_valid_witness :
    ∃ gs, getExecutionOrder c1spec (fun _ l => l) = some (Except.ok gs) ∧
      List.Perm gs.flatten (specKeys c1spec) :=
  have h := execution_order_valid c1spec (fun _ l => l) (fun _ l => List.Perm.refl l)
    (by decide) (by decide) (by decide)
    ⟨fun s => if s = "companies" then 0 else 1, by decide⟩
  ⟨h.choose, h.choose_spec.1, h.choose_spec.2.1⟩

/-- Loop invariant for C7: a nonempty set `c` of names, each of which has
a dependency inside `c` (the finite-graph witness of a dependency cycle,
e.g. `c = [A, B]` when A depends on B and B depends on A), can never
become ready, so the loop must reach an iteration with no ready
workflows and raise, reporting a stuck remainder that still contains all
of `c`. -/
theorem geoLoop_cycle_error (deps : String → List String)
    (iter : Nat → List String → List String)
    (hIter : ∀ k l, List.Perm (iter k l) l)
    (c : List String) (hcne : c ≠ [])
    (hcdep : ∀ x ∈ c, ∃ d ∈ deps x, d ∈ c) :
    ∀ fuel k remaining, remaining.length ≤ fuel → (∀ x ∈ c, x ∈ remaining) →
      ∃ rem, geoLoop deps iter k fuel remaining = some (Except.error rem) ∧
        (∀ x ∈ c, x ∈ rem) ∧ (∀ x ∈ rem, x ∈ remaining) := by
  intro fuel
  induction fuel with
  | zero =>
    intro k remaining hlen hcr
    obtain ⟨x, hx⟩ := List.exists_mem_of_ne_nil c hcne
    have : x ∈ remaining := hcr x hx
    have : remaining ≠ [] := List.ne_nil_of_mem this
    have : 0 < remaining.length := List.length_pos.mpr this
    omega
  | succ fuel ih =>
    intro k remaining hlen hcr
    obtain ⟨x0, hx0⟩ := List.exists_mem_of_ne_nil c hcne
    have hrne : remaining ≠ [] := List.ne_nil_of_mem (hcr x0 hx0)
    have hre : remaining.isEmpty = false := by simpa using hrne
    have hcnotready : ∀ x ∈ c, ¬ x ∈ readyFilter deps remaining (iter k remaining) := by
      intro x hx hxr
      have hall := (List.mem_filter.mp hxr).2
      rw [List.all_eq_true] at hall
      obtain ⟨d, hd, hdc⟩ := hcdep x hx
      have hdm : d ∈ remaining := hcr d hdc
      have := hall d hd
      simp [hdm] at this
    cases hready : (readyFilter deps remaining (iter k remaining)).isEmpty with
    | true =>
      refine ⟨remaining, ?_, hcr, fun x hx => hx⟩
      simp only [geoLoop, hre, Bool.false_eq_true, if_false, hready, if_true]
    | false =>
      have hready_ne : readyFilter deps remaining (iter k remaining) ≠ [] := by
        intro hc
        rw [hc] at hready
        cases hready
      have happ := ready_append_rest_perm deps remaining (iter k remaining)
        (hIter k remaining)
      have hlens : (readyFilter deps remaining (iter k remaining)).length +
          (remaining.filter (fun w =>
            !((readyFilter deps remaining (iter k remaining)).contains w))).length =
          remaining.length := by
        have := happ.length_eq
        simpa [List.length_append] using this
      have hready_pos : 0 < (readyFilter deps remaining (iter k remaining)).length :=
        List.length_pos.mpr hready_ne
      have hlen' : (remaining.filter (fun w =>
          !((readyFilter deps remaining (iter k remaining)).contains w))).length ≤ fuel := by
        omega
      have hcr' : ∀ x ∈ c, x ∈ remaining.filter (fun w =>
          !((readyFilter deps remaining (iter k remaining)).contains w)) := by
        intro x hx
        refine List.mem_filter.mpr ⟨hcr x hx, ?_⟩
        cases hc : (readyFilter deps remaining (iter k remaining)).contains x with
        | false => rfl
        | true => exact absurd (by simpa using hc) (hcnotready x hx)
      obtain ⟨rem, heq, hcrem, hsub⟩ := ih (k + 1) _ hlen' hcr'
      refine ⟨rem, ?_, hcrem, fun x hx => (List.mem_filter.mp (hsub x hx)).1⟩
      simp only [geoLoop, hre, Bool.false_eq_true, if_false, hready]
      rw [heq]
      rfl

/-- C7: for every `DatasetSpec` whose dependencies form a cycle among keys
of `workflows` (witnessed by a nonempty list of workflow names each of
which depends on another member — e.g. `[A, B]` when A depends on B and B
depends on A), `get_execution_order()` raises, and the raised
`ValueError` (the error the spec calls `CircularDependency`) carries the
stuck remaining workflow names: a sublist of the keys containing the
whole cycle. -/
theorem cycle_detection (spec : DatasetSpec)
    (iter : Nat → List String → List String)
    (hIter : ∀ k l, List.Perm (iter k l) l)
    (c : List String) (hcne : c ≠ [])
    (hck : ∀ x ∈ c, x ∈ specKeys spec)
    (hcdep : ∀ x ∈ c, ∃ d ∈ depsOf spec x, d ∈ c) :
    ∃ rem, getExecutionOrder spec iter = some (Except.error rem) ∧
      (∀ x ∈ c, x ∈ rem) ∧ (∀ x ∈ rem, x ∈ specKeys spec) :=
  geoLoop_cycle_error (depsOf spec) iter hIter c hcne hcdep
    (specKeys spec).length 0 (specKeys spec) (Nat.le_refl _) hck

/-- The mutual-cycle spec used as the C7 witness input: companies depends
on people and people depends on companies. -/
def c7spec : DatasetSpec :=
  { workflows := [("companies", 10), ("people", 50)],
    dependencies := [("companies", ["people"]), ("people", ["companies"])] }

/-- Witness for C7 at the concrete two-cycle spec with the identity
set-iteration order. -/
theorem cycle_detection_witness :
    ∃ rem, getExecutionOrder c7spec (fun _ l => l) = some (Except.error rem) ∧
      (∀ x ∈ ["companies", "people"], x ∈ rem) :=
  have h := cycle_detection c7spec (fun _ l => l) (fun _ l => List.Perm.refl l)
    ["companies", "people"] (by decide) (by decide) (by decide)
  ⟨h.choose, h.choose_spec.1, h.choose_spec.2.1⟩

/-- The property claimed by the spec for within-group ordering: every
group lists its members in the original insertion order of
`workflows` (i.e. each group equals the key list filtered to the group's
members). -/
def groupsInInsertionOrder (gs : List (List String)) (keys : List String) : Prop :=
  ∀ g ∈ gs, g = keys.filter (fun k => g.contains k)

instance (gs : List (List String)) (keys : List String) :
    Decidable (groupsInInsertionOrder gs keys) := by
  unfold groupsInInsertionOrder
  infer_instance

/-- A spec whose two workflows are mutually independent (the user passed
an explicit `dependencies={"people": []}`, which `__post_init__` keeps),
so both land in one execution group. -/
def c8spec : DatasetSpec :=
  { workflows := [("companies", 5), ("people", 25)],
    dependencies := [("people", [])] }

/-- C8 counterexample: `get_execution_order` iterates the Python set
`remaining_workflows`, whose iteration order is implementation-defined
hash order, not insertion order.  With the admissible set-iteration order
that visits the remaining set reversed, the single group comes out as
`["people", "companies"]` even though `"companies"` was inserted first —
so the names within a group are not in insertion order. -/
theorem insertion_order_within_group_cex :
    getExecutionOrder c8spec (fun _ l => l.reverse) =
      some (Except.ok [["people", "companies"]]) ∧
    (∀ (k : Nat) (l : List String), List.Perm (l.reverse) l) ∧
    ¬ groupsInInsertionOrder [["people", "companies"]] (specKeys c8spec) :=
  ⟨by rfl, fun _ l => List.reverse_perm l, by decide⟩

/-- Relation between two `get_execution_order` outcomes: identical error
or fuel behaviour, and pointwise-permuted groups on success. -/
def SameGroups : Option (Except (List String) (List (List String))) →
    Option (Except (List String) (List (List String))) → Prop
  | some (Except.ok gs1), some (Except.ok gs2) =>
      gs1.length = gs2.length ∧
        ∀ i (h1 : i < gs1.length) (h2 : i < gs2.length),
          List.Perm (gs1.get ⟨i, h1⟩) (gs2.get ⟨i, h2⟩)
  | some (Except.error e1), some (Except.error e2) => e1 = e2
  | none, none => True
  | _, _ => False

/-- C8 amended, loop level: the outcome of the `get_execution_order` loop
does not depend on the set-iteration order beyond the order of names
inside each group — any two admissible iteration orders yield the same
number of groups, pointwise permuted, and identical error behaviour.  So
group membership is deterministic, but the only within-group order
guarantee is "some permutation of the group", not insertion order. -/
theorem geoLoop_iter_irrelevant (deps : String → List String)
    (iter1 iter2 : Nat → List String → List String)
    (hIter1 : ∀ k l, List.Perm (iter1 k l) l)
    (hIter2 : ∀ k l, List.Perm (iter2 k l) l) :
    ∀ fuel k remaining,
      SameGroups (geoLoop deps iter1 k fuel remaining)
        (geoLoop deps iter2 k fuel remaining) := by
  intro fuel
  induction fuel with
  | zero =>
    intro k remaining
    cases hre : remaining.isEmpty with
    | true =>
      simp only [geoLoop, hre, if_true]
      exact ⟨rfl, fun i h1 h2 => absurd h1 (by simp)⟩
    | false =>
      simp only [geoLoop, hre, Bool.false_eq_true, if_false]
      trivial
  | succ fuel ih =>
    intro k remaining
    cases hre : remaining.isEmpty with
    | true =>
      simp only [geoLoop, hre, if_true]
      exact ⟨rfl, fun i h1 h2 => absurd h1 (by simp)⟩
    | false =>
      have hp : List.Perm (readyFilter deps remaining (iter1 k remaining))
          (readyFilter deps remaining (iter2 k remaining)) :=
        (readyFilter_perm deps remaining _ (hIter1 k remaining)).trans
          (readyFilter_perm deps remaining _ (hIter2 k remaining)).symm
      cases hie1 : (readyFilter deps remaining (iter1 k remaining)).isEmpty with
      | true =>
        have hnil1 : readyFilter deps remaining (iter1 k remaining) = [] := by
          simpa using hie1
        have hnil2 : readyFilter deps remaining (iter2 k remaining) = [] :=
          (hnil1 ▸ hp).symm.eq_nil
        have hie2 : (readyFilter deps remaining (iter2 k remaining)).isEmpty = true := by
          rw [hnil2]; rfl
        simp only [geoLoop, hre, Bool.false_eq_true, if_false, hie1, hie2, if_true]
        rfl
      | false =>
        have hne1 : readyFilter deps remaining (iter1 k remaining) ≠ [] := by
          intro hc; rw [hc] at hie1; cases hie1
        have hne2 : readyFilter deps remaining (iter2 k remaining) ≠ [] := by
          intro hc
          exact hne1 ((hc ▸ hp).eq_nil)
        have hie2 : (readyFilter deps remaining (iter2 k remaining)).isEmpty = false := by
          cases hc : (readyFilter deps remaining (iter2 k remaining)).isEmpty with
          | false => rfl
          | true => exact absurd (by simpa using hc) hne2
        simp only [geoLoop, hre, Bool.false_eq_true, if_false, hie1, hie2]
        rw [geo_newRem_eq deps remaining (iter1 k remaining) (hIter1 k remaining),
          geo_newRem_eq deps remaining (iter2 k remaining) (hIter2 k remaining)]
        have hrec := ih (k + 1)
          (remaining.filter
            (fun w => !((deps w).all fun d => !(remaining.contains d))))
        cases ht1 : geoLoop deps iter1 (k + 1) fuel
            (remaining.filter
              (fun w => !((deps w).all fun d => !(remaining.contains d)))) with
        | none =>
          cases ht2 : geoLoop deps iter2 (k + 1) fuel
              (remaining.filter
                (fun w => !((deps w).all fun d => !(remaining.contains d)))) with
          | none => trivial
          | some r2 =>
            rw [ht1, ht2] at hrec
            cases r2 <;> exact absurd hrec (by simp [SameGroups])
        | some r1 =>
          cases ht2 : geoLoop deps iter2 (k + 1) fuel
              (remaining.filter
                (fun w => !((deps w).all fun d => !(remaining.contains d)))) with
          | none =>
            rw [ht1, ht2] at hrec
            cases r1 <;> exact absurd hrec (by simp [SameGroups])
          | some r2 =>
            rw [ht1, ht2] at hrec
            cases r1 with
            | error e1 =>
              cases r2 with
              | error e2 =>
                have he : e1 = e2 := hrec
                subst he
                rfl
              | ok gs2 => exact absurd hrec (by simp [SameGroups])
            | ok gs1 =>
              cases r2 with
              | error e2 => exact absurd hrec (by simp [SameGroups])
              | ok gs2 =>
                obtain ⟨hlen, hpt⟩ := hrec
                refine ⟨by simpa using hlen, ?_⟩
                intro i h1 h2
                cases i with
                | zero => exact hp
                | succ i =>
                  exact hpt i (by simpa using h1) (by simpa using h2)

/-- C8 amended, top level: for any spec and any two admissible
set-iteration orders, `get_execution_order` returns the same groups up to
permutation within each group (and the same error or non-termination
behaviour). -/
theorem execution_order_groups_determined (spec : DatasetSpec)
    (iter1 iter2 : Nat → List String → List String)
    (hIter1 : ∀ k l, List.Perm (iter1 k l) l)
    (hIter2 : ∀ k l, List.Perm (iter2 k l) l) :
    SameGroups (getExecutionOrder spec iter1) (getExecutionOrder spec iter2) :=
  geoLoop_iter_irrelevant (depsOf spec) iter1 iter2 hIter1 hIter2
    (specKeys spec).length 0 (specKeys spec)

/-- Witness for the amended C8 at the concrete independent-pair spec,
comparing the identity and reversed iteration orders. -/
theorem execution_order_groups_determined_witness :
    SameGroups (getExecutionOrder c8spec (fun _ l => l))
      (getExecutionOrder c8spec (fun _ l => l.reverse)) :=
  execution_order_groups_determined c8spec (fun _ l => l) (fun _ l => l.reverse)
    (fun _ l => List.Perm.refl l) (fun _ l => List.reverse_perm l)

/-! ### `DatasetSpec.__post_init__` legacy shorthand (claim C10) -/

/-- C10: constructing a `DatasetSpec` through the legacy shorthand with
both `people_count` and `companies_count` set (and no `workflows` mapping)
yields a spec whose `workflows` mapping holds exactly the keys
`"companies"` and `"people"`, with `"companies"` first in insertion
order, whose legacy fields are cleared to `None`, and for which
`_build_workflow_steps` assigns the `"truncate"` write-mode override to
the `"companies"` step and `"append"` to the `"people"` step. -/
theorem legacy_shorthand_construction (p c : Int) :
    ∃ spec, postInit [] [] (some p) (some c) "Custom dataset" = Except.ok spec ∧
      spec.workflows = [("companies", c), ("people", p)] ∧
      spec.people_count = none ∧ spec.companies_count = none ∧
      spec.dependencies = [("people", ["companies"])] ∧
      ((buildWorkflowSteps spec).lookup "companies").map
        (fun s => s.write_mode_override) = some "truncate" ∧
      ((buildWorkflowSteps spec).lookup "people").map
        (fun s => s.write_mode_override) = some "append" :=
  ⟨_, rfl, rfl, rfl, rfl, rfl, rfl, rfl⟩

/-! ### `DatasetOrchestrator.execute` (dataset_orchestrator.py lines 398-575) -/

/-- The mutable `self.workflow_steps` dict, in insertion order. -/
abbrev StepMap : Type := List (String × WorkflowStep)

/-- Python `f"{x}"` applied to an `Optional[str]`: `None` prints as
`"None"`. -/
def msgOr (o : Option String) : String := o.getD "None"

/-- Model of `result.error_message or "Unknown error"`
(dataset_orchestrator.py line 439): Python `or` also replaces the empty
string. -/
def errOr (o : Option String) : String :=
  match o with
  | some s => if s.isEmpty then "Unknown error" else s
  | none => "Unknown error"

/-- The step mutation performed by `_execute_workflow_step`
(dataset_orchestrator.py lines 398-451) once the inner
`workflow.execute(...)` has returned `r`: `mark_running` (transient, then
overwritten by the terminal marking), then `mark_completed(r)` on success
or `mark_failed(r.error_message or "Unknown error")` on failure.
`mark_failed` sets only `status` and `error_message`; the `result` field
stays `None` on the failure path, as in the source.  An exception thrown
inside the step (lines 446-451) is equivalent to `r` being a `FAILED`
result carrying `str(e)`, which the `outcome` oracle already covers. -/
def stepAfterOutcome (r : WorkflowResult) (s : WorkflowStep) : WorkflowStep :=
  if r.success then { s with status := WorkflowStepStatus.COMPLETED, result := some r }
  else { s with status := WorkflowStepStatus.FAILED, error_message := some (errOr r.error_message) }

/-- Update the entry of key `n` in the step dict. -/
def updStep (steps : StepMap) (n : String) (f : WorkflowStep → WorkflowStep) : StepMap :=
  steps.map (fun p => if p.1 = n then (p.1, f p.2) else p)

/-- Run `_execute_workflow_step` for the step named `n`:
`outcome n` is the `WorkflowResult` of the inner `workflow.execute` call
(the opaque collaborator). -/
def execWorkflowStep (outcome : String → WorkflowResult) (steps : StepMap) (n : String) :
    StepMap × WorkflowResult :=
  (updStep steps n (stepAfterOutcome (outcome n)), outcome n)

/-- Model of `self.workflow_steps[name].status`.  The `PENDING` default for a
missing key is for totality only; the orchestrator constructor puts every
executed name in the dict. -/
def statusOf (steps : StepMap) (n : String) : WorkflowStepStatus :=
  match steps.lookup n with
  | some s => s.status
  | none => WorkflowStepStatus.PENDING

/-- Message of `raise Exception(f"Workflow ... failed: ...")`
(dataset_orchestrator.py lines 536-538 and 567-569, quote characters
around the name elided). -/
def seqFailMsg (n msg : String) : String :=
  "Workflow " ++ n ++ " failed: " ++ msg

/-- Message of `raise Exception(f"Workflow ... crashed: ...")`
(dataset_orchestrator.py line 573), wrapping the inner exception text. -/
def parCrashMsg (n inner : String) : String :=
  "Workflow " ++ n ++ " crashed: " ++ inner

/-- Message of the group-level
`raise Exception(f"Workflows failed in group ...")`
(dataset_orchestrator.py lines 502-504). -/
def groupFailMsg (idx : Nat) (fails : List String) : String :=
  "Workflows failed in group " ++ toString (idx + 1) ++ ": " ++
    String.intercalate ", " fails

/-- Model of `DatasetOrchestrator._execute_group_sequential`
(dataset_orchestrator.py lines 525-540): run the group members in order;
raise on the first failed result (later members are never started). -/
def seqGroup (outcome : String → WorkflowResult) :
    List String → StepMap → StepMap × Except String Nat
  | [], steps => (steps, Except.ok 0)
  | n :: rest, steps =>
    let pr := execWorkflowStep outcome steps n
    if pr.2.success then
      let res := seqGroup outcome rest pr.1
      (res.1, res.2.map (fun m => m + 1))
    else
      (pr.1, Except.error (seqFailMsg n (msgOr pr.2.error_message)))

/-- The `as_completed` result-collection loop of
`_execute_group_parallel` (dataset_orchestrator.py lines 558-573): scan
the futures in completion order, counting successes, and raise on the
first failed result (wrapped once by the `crashed` re-raise). -/
def parScan (outcome : String → WorkflowResult) : List String → Nat → Except String Nat
  | [], acc => Except.ok acc
  | n :: rest, acc =>
    if (outcome n).success then parScan outcome rest (acc + 1)
    else Except.error (parCrashMsg n (seqFailMsg n (msgOr (outcome n).error_message)))

/-- Model of `DatasetOrchestrator._execute_group_parallel`
(dataset_orchestrator.py lines 542-575).  All submitted futures run to
completion — each worker mutates only its own step, and the
`ThreadPoolExecutor` context manager joins every future before the block
is left — so the step dict is updated for every group member regardless
of the scan result; `ordfn group` is the oracle giving the `as_completed`
order. -/
def parGroup (outcome : String → WorkflowResult) (ordfn : List String → List String)
    (group : List String) (steps : StepMap) : StepMap × Except String Nat :=
  (group.foldl (fun st n => (execWorkflowStep outcome st n).1) steps,
    parScan outcome (ordfn group) 0)

/-- The `for group_idx, workflow_group in enumerate(self.execution_groups)`
loop of `DatasetOrchestrator.execute` (dataset_orchestrator.py lines
477-504): run each group (parallel iff requested and the group has more
than one member), propagate the group helper's exception, and otherwise
raise the aggregate `Workflows failed in group ...` exception when any
member of the finished group is `FAILED`. -/
def orchLoop (outcome : String → WorkflowResult) (ordfn : List String → List String)
    (useParallel : Bool) :
    List (List String) → Nat → StepMap → StepMap × Except String Unit
  | [], _, steps => (steps, Except.ok ())
  | g :: rest, idx, steps =>
    let pr :=
      if useParallel && decide (g.length > 1) then parGroup outcome ordfn g steps
      else seqGroup outcome g steps
    match pr.2 with
    | Except.error e => (pr.1, Except.error e)
    | Except.ok _ =>
      let fails := g.filter (fun n => decide (statusOf pr.1 n = WorkflowStepStatus.FAILED))
      if fails.isEmpty then orchLoop outcome ordfn useParallel rest (idx + 1) pr.1
      else (pr.1, Except.error (groupFailMsg idx fails))

/-- The observable outcome of `DatasetOrchestrator.execute`: the final
step dict, the final `self.overall_status`, and the message of the
exception caught by the `except` block (if any). -/
structure OrchRun where
  steps : StepMap
  overall_status : WorkflowStepStatus
  raisedMsg : Option String
deriving Repr

/-- Model of `DatasetOrchestrator.execute` (dataset_orchestrator.py lines 453-523):
run the groups in order; on success `overall_status = COMPLETED`, and on
any raised exception the `except` branch sets `overall_status = FAILED`
(the returned summary then reports that status). -/
def orchExecute (steps0 : StepMap) (groups : List (List String)) (useParallel : Bool)
    (outcome : String → WorkflowResult) (ordfn : List String → List String) : OrchRun :=
  match orchLoop outcome ordfn useParallel groups 0 steps0 with
  | (st, Except.ok _) =>
    { steps := st, overall_status := WorkflowStepStatus.COMPLETED, raisedMsg := none }
  | (st, Except.error e) =>
    { steps := st, overall_status := WorkflowStepStatus.FAILED, raisedMsg := some e }

/-! ### Facts about `DatasetOrchestrator.execute` (claims C2, C5) -/

/-- Updating one step leaves the lookup of every other key unchanged. -/
theorem lookup_updStep_ne (steps : StepMap) (n m : String)
    (f : WorkflowStep → WorkflowStep) (h : m ≠ n) :
    (updStep steps n f).lookup m = steps.lookup m := by
  induction steps with
  | nil => rfl
  | cons p rest ih =>
    obtain ⟨k, v⟩ := p
    by_cases hk : k = n
    · subst hk
      have h1 : updStep ((k, v) :: rest) k f = (k, f v) :: updStep rest k f := by
        simp [updStep]
      rw [h1]
      have hmk : (m == k) = false := by simpa using h
      simp only [List.lookup, hmk]
      exact ih
    · have h1 : updStep ((k, v) :: rest) n f = (k, v) :: updStep rest n f := by
        simp [updStep, hk]
      rw [h1]
      simp only [List.lookup]
      cases hmk : (m == k) with
      | true => simp only [hmk]
      | false =>
        simp only [hmk]
        exact ih

/-- Updating one step maps its own lookup through the update. -/
theorem lookup_updStep_self (steps : StepMap) (n : String)
    (f : WorkflowStep → WorkflowStep) :
    (updStep steps n f).lookup n = (steps.lookup n).map f := by
  induction steps with
  | nil => rfl
  | cons p rest ih =>
    obtain ⟨k, v⟩ := p
    by_cases hk : k = n
    · subst hk
      have h1 : updStep ((k, v) :: rest) k f = (k, f v) :: updStep rest k f := by
        simp [updStep]
      rw [h1]
      simp only [List.lookup, beq_self_eq_true]
      rfl
    · have h1 : updStep ((k, v) :: rest) n f = (k, v) :: updStep rest n f := by
        simp [updStep, hk]
      rw [h1]
      have hnk : (n == k) = false := by
        simpa using fun hc : n = k => hk hc.symm
      simp only [List.lookup, hnk]
      exact ih

/-- Restatement of `lookup_updStep_ne` for `statusOf`. -/
theorem statusOf_updStep_ne (steps : StepMap) (n m : String)
    (f : WorkflowStep → WorkflowStep) (h : m ≠ n) :
    statusOf (updStep steps n f) m = statusOf steps m := by
  unfold statusOf
  rw [lookup_updStep_ne steps n m f h]

/-- Sequential group execution does not touch steps outside the group. -/
theorem seqGroup_frame (outcome : String → WorkflowResult) :
    ∀ group steps m, ¬ m ∈ group →
      statusOf ((seqGroup outcome group steps).1) m = statusOf steps m := by
  intro group
  induction group with
  | nil => intro steps m _; rfl
  | cons n rest ih =>
    intro steps m h
    have hmn : m ≠ n := fun hc => h (hc ▸ List.mem_cons_self n rest)
    have hmr : ¬ m ∈ rest := fun hc => h (List.mem_cons_of_mem n hc)
    simp only [seqGroup, execWorkflowStep]
    cases hs : (outcome n).success with
    | true =>
      simp only [hs, if_true]
      rw [ih _ m hmr, statusOf_updStep_ne _ _ _ _ hmn]
    | false =>
      simp only [hs, Bool.false_eq_true, if_false]
      exact statusOf_updStep_ne _ _ _ _ hmn

/-- The parallel worker fold does not touch steps outside the group. -/
theorem parFold_frame (outcome : String → WorkflowResult) :
    ∀ (group : List String) (steps : StepMap) (m : String), ¬ m ∈ group →
      statusOf (group.foldl (fun st n => (execWorkflowStep outcome st n).1) steps) m =
        statusOf steps m := by
  intro group
  induction group with
  | nil => intro steps m _; rfl
  | cons n rest ih =>
    intro steps m h
    have hmn : m ≠ n := fun hc => h (hc ▸ List.mem_cons_self n rest)
    have hmr : ¬ m ∈ rest := fun hc => h (List.mem_cons_of_mem n hc)
    simp only [List.foldl_cons]
    rw [ih _ m hmr]
    exact statusOf_updStep_ne _ _ _ _ hmn

/-- Either group-execution helper leaves steps outside the group
unchanged. -/
theorem groupRun_frame (outcome : String → WorkflowResult)
    (ordfn : List String → List String) (c : Bool) (g : List String)
    (steps : StepMap) (m : String) (h : ¬ m ∈ g) :
    statusOf ((if c then parGroup outcome ordfn g steps
      else seqGroup outcome g steps)).1 m = statusOf steps m := by
  cases c with
  | true =>
    simp only [if_true]
    exact parFold_frame outcome g steps m h
  | false =>
    simp only [Bool.false_eq_true, if_false]
    exact seqGroup_frame outcome g steps m h

/-- The whole group loop leaves steps outside all groups unchanged. -/
theorem orchLoop_frame (outcome : String → WorkflowResult)
    (ordfn : List String → List String) (useParallel : Bool) :
    ∀ groups idx steps m, ¬ m ∈ groups.flatten →
      statusOf ((orchLoop outcome ordfn useParallel groups idx steps).1) m =
        statusOf steps m := by
  intro groups
  induction groups with
  | nil => intro idx steps m _; rfl
  | cons g rest ih =>
    intro idx steps m h
    have hg : ¬ m ∈ g := fun hc => h (by simp [List.mem_flatten]; exact Or.inl hc)
    have hr : ¬ m ∈ rest.flatten := fun hc => h (by simp [List.mem_flatten] at hc ⊢; exact Or.inr hc)
    simp only [orchLoop]
    cases hres : (if useParallel && decide (g.length > 1) then parGroup outcome ordfn g steps
        else seqGroup outcome g steps).2 with
    | error e =>
      simp only [hres]
      exact groupRun_frame outcome ordfn _ g steps m hg
    | ok u =>
      simp only [hres]
      cases hfe : (g.filter (fun n =>
          decide (statusOf (if useParallel && decide (g.length > 1) then
            parGroup outcome ordfn g steps else seqGroup outcome g steps).1 n =
            WorkflowStepStatus.FAILED))).isEmpty with
      | true =>
        simp only [hfe, if_true]
        rw [ih (idx + 1) _ m hr]
        exact groupRun_frame outcome ordfn _ g steps m hg
      | false =>
        simp only [hfe, Bool.false_eq_true, if_false]
        exact groupRun_frame outcome ordfn _ g steps m hg

/-- Updating a step preserves presence of every key. -/
theorem lookup_updStep_isSome (steps : StepMap) (n m : String)
    (f : WorkflowStep → WorkflowStep) :
    ((updStep steps n f).lookup m).isSome = (steps.lookup m).isSome := by
  by_cases h : m = n
  · subst h
    rw [lookup_updStep_self]
    cases steps.lookup m <;> rfl
  · rw [lookup_updStep_ne _ _ _ _ h]

/-- Running one step sets its status to the terminal state matching the
outcome. -/
theorem statusOf_execStep_self (outcome : String → WorkflowResult) (steps : StepMap)
    (n : String) (hn : ((steps.lookup n)).isSome = true) :
    statusOf ((execWorkflowStep outcome steps n).1) n =
      (if (outcome n).success then WorkflowStepStatus.COMPLETED
        else WorkflowStepStatus.FAILED) := by
  obtain ⟨s, hs⟩ := Option.isSome_iff_exists.mp hn
  unfold execWorkflowStep statusOf
  rw [lookup_updStep_self, hs]
  show (stepAfterOutcome (outcome n) s).status = _
  unfold stepAfterOutcome
  cases h : (outcome n).success with
  | true => simp [h]
  | false => simp [h]

/-- A sequential group run that returns normally has completed every
member of the group. -/
theorem seqGroup_ok_completed (outcome : String → WorkflowResult) :
    ∀ (group : List String) (steps : StepMap), group.Nodup →
      (∀ n ∈ group, ((steps.lookup n)).isSome = true) →
      ∀ k, (seqGroup outcome group steps).2 = Except.ok k →
      ∀ n ∈ group,
        statusOf ((seqGroup outcome group steps).1) n = WorkflowStepStatus.COMPLETED := by
  intro group
  induction group with
  | nil => intro steps _ _ k _ n hn; exact absurd hn (List.not_mem_nil n)
  | cons n0 rest ih =>
    intro steps hnd hcov k hok n hn
    have hn0r : ¬ n0 ∈ rest := (List.nodup_cons.mp hnd).1
    have hndr : rest.Nodup := (List.nodup_cons.mp hnd).2
    simp only [seqGroup, execWorkflowStep] at hok ⊢
    cases hs : (outcome n0).success with
    | false =>
      simp only [hs, Bool.false_eq_true, if_false] at hok
      cases hok
    | true =>
      simp only [hs, if_true] at hok ⊢
      have hcov' : ∀ m ∈ rest,
          (((updStep steps n0 (stepAfterOutcome (outcome n0))).lookup m)).isSome = true := by
        intro m hm
        rw [lookup_updStep_isSome]
        exact hcov m (List.mem_cons_of_mem n0 hm)
      rcases List.mem_cons.mp hn with rfl | hnr
      · rw [seqGroup_frame outcome rest _ n hn0r]
        have := statusOf_execStep_self outcome steps n (hcov n (List.mem_cons_self n rest))
        simp only [execWorkflowStep] at this
        rw [this, hs]
        rfl
      · obtain ⟨k2, hk2⟩ : ∃ k2, (seqGroup outcome rest
            (updStep steps n0 (stepAfterOutcome (outcome n0)))).2 = Except.ok k2 := by
          cases hrr : (seqGroup outcome rest
              (updStep steps n0 (stepAfterOutcome (outcome n0)))).2 with
          | error e => rw [hrr] at hok; cases hok
          | ok k2 => exact ⟨k2, rfl⟩
        exact ih _ hndr hcov' k2 hk2 n hnr

/-- After the parallel worker fold, every group member is in the terminal
state matching its outcome (the wave always drains). -/
theorem parFold_status (outcome : String → WorkflowResult) :
    ∀ (group : List String) (steps : StepMap), group.Nodup →
      (∀ n ∈ group, ((steps.lookup n)).isSome = true) →
      ∀ n ∈ group,
        statusOf (group.foldl (fun st m => (execWorkflowStep outcome st m).1) steps) n =
          (if (outcome n).success then WorkflowStepStatus.COMPLETED
            else WorkflowStepStatus.FAILED) := by
  intro group
  induction group with
  | nil => intro steps _ _ n hn; exact absurd hn (List.not_mem_nil n)
  | cons n0 rest ih =>
    intro steps hnd hcov n hn
    have hn0r : ¬ n0 ∈ rest := (List.nodup_cons.mp hnd).1
    have hndr : rest.Nodup := (List.nodup_cons.mp hnd).2
    have hcov' : ∀ m ∈ rest,
        (((execWorkflowStep outcome steps n0).1.lookup m)).isSome = true := by
      intro m hm
      simp only [execWorkflowStep]
      rw [lookup_updStep_isSome]
      exact hcov m (List.mem_cons_of_mem n0 hm)
    simp only [List.foldl_cons]
    rcases List.mem_cons.mp hn with rfl | hnr
    · rw [parFold_frame outcome rest _ n hn0r]
      exact statusOf_execStep_self outcome steps n (hcov n (List.mem_cons_self n rest))
    · exact ih _ hndr hcov' n hnr

/-- If the group-failure filter is empty, no member of the group is
`FAILED`. -/
theorem filter_isEmpty_not_failed (g : List String) (steps : StepMap)
    (h : (g.filter (fun n =>
        decide (statusOf steps n = WorkflowStepStatus.FAILED))).isEmpty = true) :
    ∀ n ∈ g, statusOf steps n ≠ WorkflowStepStatus.FAILED := by
  intro n hn hf
  have hmem : n ∈ g.filter (fun n =>
      decide (statusOf steps n = WorkflowStepStatus.FAILED)) :=
    List.mem_filter.mpr ⟨hn, by simp [hf]⟩
  have hnil : g.filter (fun n =>
      decide (statusOf steps n = WorkflowStepStatus.FAILED)) = [] := by
    simpa using h
  rw [hnil] at hmem
  exact absurd hmem (List.not_mem_nil n)

/-- Central invariant for C2: starting from all-`PENDING` steps with the
groups pairwise disjoint, if after the group loop some step of group `i`
is `FAILED`, then the loop raised (so `DatasetOrchestrator.execute` takes
its `except` branch) and every step of every later group still has status
`PENDING` — it was never started. -/
theorem orchLoop_failed_halts (outcome : String → WorkflowResult)
    (ordfn : List String → List String) (useParallel : Bool) :
    ∀ (groups : List (List String)) (idx : Nat) (steps : StepMap),
      groups.flatten.Nodup →
      (∀ n ∈ groups.flatten, statusOf steps n = WorkflowStepStatus.PENDING) →
      ∀ i (hi : i < groups.length), ∀ n ∈ groups.get ⟨i, hi⟩,
        statusOf ((orchLoop outcome ordfn useParallel groups idx steps).1) n =
          WorkflowStepStatus.FAILED →
        (∃ e, (orchLoop outcome ordfn useParallel groups idx steps).2 = Except.error e) ∧
        ∀ j (hj : j < groups.length), i < j → ∀ m ∈ groups.get ⟨j, hj⟩,
          statusOf ((orchLoop outcome ordfn useParallel groups idx steps).1) m =
            WorkflowStepStatus.PENDING := by
  intro groups
  induction groups with
  | nil =>
    intro idx steps _ _ i hi
    exact absurd hi (by simp)
  | cons g rest ih =>
    intro idx steps hnd hpend i hi n hn hfail
    have hflat : (g :: rest).flatten = g ++ rest.flatten := by simp
    rw [hflat] at hnd
    have hdisj : ∀ m ∈ rest.flatten, ¬ m ∈ g := by
      intro m hm hmg
      exact (List.nodup_append.mp hnd).2.2 hmg hm
    have hpg : ∀ m ∈ g, statusOf steps m = WorkflowStepStatus.PENDING := by
      intro m hm
      exact hpend m (by rw [hflat]; exact List.mem_append_left _ hm)
    have hpr : ∀ m ∈ rest.flatten, statusOf steps m = WorkflowStepStatus.PENDING := by
      intro m hm
      exact hpend m (by rw [hflat]; exact List.mem_append_right _ hm)
    have hlater_frame : ∀ st : StepMap,
        (∀ m ∈ rest.flatten, statusOf st m = WorkflowStepStatus.PENDING) →
        ∀ j (hj : j < (g :: rest).length), 0 < j →
        ∀ m ∈ (g :: rest).get ⟨j, hj⟩, statusOf st m = WorkflowStepStatus.PENDING := by
      intro st hst j hj hjpos m hm
      cases j with
      | zero => omega
      | succ jj =>
        have hmf : m ∈ rest.flatten := by
          refine List.mem_flatten.mpr ⟨rest.get ⟨jj, by simpa using hj⟩, ?_, hm⟩
          exact List.get_mem _ _ _
        exact hst m hmf
    simp only [orchLoop]
    simp only [orchLoop] at hfail
    cases hres : (if useParallel && decide (g.length > 1) then parGroup outcome ordfn g steps
        else seqGroup outcome g steps).2 with
    | error e =>
      simp only [hres] at hfail ⊢
      refine ⟨⟨e, rfl⟩, ?_⟩
      intro j hj hij m hm
      refine hlater_frame _ ?_ j hj (by omega) m hm
      intro m2 hm2
      rw [groupRun_frame outcome ordfn _ g steps m2 (hdisj m2 hm2)]
      exact hpr m2 hm2
    | ok u =>
      simp only [hres] at hfail ⊢
      cases hfe : (g.filter (fun n2 =>
          decide (statusOf (if useParallel && decide (g.length > 1) then
            parGroup outcome ordfn g steps else seqGroup outcome g steps).1 n2 =
            WorkflowStepStatus.FAILED))).isEmpty with
      | false =>
        simp only [hfe, Bool.false_eq_true, if_false] at hfail ⊢
        refine ⟨⟨_, rfl⟩, ?_⟩
        intro j hj hij m hm
        refine hlater_frame _ ?_ j hj (by omega) m hm
        intro m2 hm2
        rw [groupRun_frame outcome ordfn _ g steps m2 (hdisj m2 hm2)]
        exact hpr m2 hm2
      | true =>
        simp only [hfe, if_true] at hfail ⊢
        have hpend' : ∀ m ∈ rest.flatten,
            statusOf (if useParallel && decide (g.length > 1) then
              parGroup outcome ordfn g steps else seqGroup outcome g steps).1 m =
              WorkflowStepStatus.PENDING := by
          intro m hm
          rw [groupRun_frame outcome ordfn _ g steps m (hdisj m hm)]
          exact hpr m hm
        have hndr : rest.flatten.Nodup := (List.nodup_append.mp hnd).2.1
        cases i with
        | zero =>
          exfalso
          have hng : n ∈ g := hn
          have hnotr : ¬ n ∈ rest.flatten := fun hc => hdisj n hc hng
          rw [orchLoop_frame outcome ordfn useParallel rest (idx + 1) _ n hnotr] at hfail
          exact filter_isEmpty_not_failed g _ hfe n hng hfail
        | succ i0 =>
          have hi0 : i0 < rest.length := by simpa using hi
          obtain ⟨⟨e, herr⟩, hlater⟩ := ih (idx + 1) _ hndr hpend' i0 hi0 n hn hfail
          refine ⟨⟨e, herr⟩, ?_⟩
          intro j hj hij m hm
          cases j with
          | zero => omega
          | succ jj =>
            have hjj : jj < rest.length := by simpa using hj
            exact hlater jj hjj (by omega) m hm

/-- The final step dict of `DatasetOrchestrator.execute` is the step dict
left by the group loop, on both the success and the failure path. -/
theorem orchExecute_steps (steps0 : StepMap) (groups : List (List String))
    (useParallel : Bool) (outcome : String → WorkflowResult)
    (ordfn : List String → List String) :
    (orchExecute steps0 groups useParallel outcome ordfn).steps =
      (orchLoop outcome ordfn useParallel groups 0 steps0).1 := by
  unfold orchExecute
  cases h : orchLoop outcome ordfn useParallel groups 0 steps0 with
  | mk st res => cases res <;> rfl

/-- When the group loop raises, `execute` reports overall status
`FAILED`. -/
theorem orchExecute_status_failed (steps0 : StepMap) (groups : List (List String))
    (useParallel : Bool) (outcome : String → WorkflowResult)
    (ordfn : List String → List String) (e : String)
    (h : (orchLoop outcome ordfn useParallel groups 0 steps0).2 = Except.error e) :
    (orchExecute steps0 groups useParallel outcome ordfn).overall_status =
      WorkflowStepStatus.FAILED := by
  unfold orchExecute
  cases hp : orchLoop outcome ordfn useParallel groups 0 steps0 with
  | mk st res =>
    rw [hp] at h
    simp only at h
    rw [h]

/-- C2: during `DatasetOrchestrator.execute`, if any `WorkflowStep` of
some execution group ends `FAILED`, then no step of any later execution
group is ever started — each such step's status is still `PENDING` after
`execute` returns — and the overall status is `FAILED`.  Hypotheses
reflect the state `execute` starts from: every step is `PENDING` and the
execution groups are pairwise disjoint (their concatenation is nodup, as
`get_execution_order` guarantees). -/
theorem failure_halts_later_groups (steps0 : StepMap) (groups : List (List String))
    (useParallel : Bool) (outcome : String → WorkflowResult)
    (ordfn : List String → List String)
    (hnd : groups.flatten.Nodup)
    (hpend : ∀ n ∈ groups.flatten, statusOf steps0 n = WorkflowStepStatus.PENDING)
    (i : Nat) (hi : i < groups.length) (n : String) (hn : n ∈ groups.get ⟨i, hi⟩)
    (hfail : statusOf (orchExecute steps0 groups useParallel outcome ordfn).steps n =
      WorkflowStepStatus.FAILED) :
    (orchExecute steps0 groups useParallel outcome ordfn).overall_status =
      WorkflowStepStatus.FAILED ∧
    ∀ j (hj : j < groups.length), i < j → ∀ m ∈ groups.get ⟨j, hj⟩,
      statusOf (orchExecute steps0 groups useParallel outcome ordfn).steps m =
        WorkflowStepStatus.PENDING := by
  rw [orchExecute_steps] at hfail
  obtain ⟨⟨e, herr⟩, hlater⟩ :=
    orchLoop_failed_halts outcome ordfn useParallel groups 0 steps0 hnd hpend i hi n hn hfail
  constructor
  · exact orchExecute_status_failed steps0 groups useParallel outcome ordfn e herr
  · intro j hj hij m hm
    rw [orchExecute_steps]
    exact hlater j hj hij m hm

/-- Steps for the C2 witness: two independent single-member groups. -/
def c2steps : StepMap := buildWorkflowSteps { workflows := [("a", 1), ("b", 1)] }

/-- Outcome oracle for the C2 witness: workflow `a` fails, `b` would
succeed. -/
def c2outcome : String → WorkflowResult := fun n =>
  if n = "a" then { status := WorkflowStatus.FAILED, error_message := some "abort" }
  else { status := WorkflowStatus.COMPLETED, records_generated := 1 }

/-- Witness for C2 at a concrete two-group run: group 1 fails, so the
group-2 step is still `PENDING` and the overall status is `FAILED`. -/
theorem failure_halts_later_groups_witness :
    (orchExecute c2steps [["a"], ["b"]] false c2outcome (fun l => l)).overall_status =
      WorkflowStepStatus.FAILED ∧
    statusOf (orchExecute c2steps [["a"], ["b"]] false c2outcome (fun l => l)).steps "b" =
      WorkflowStepStatus.PENDING := by
  have h := failure_halts_later_groups c2steps [["a"], ["b"]] false c2outcome (fun l => l)
    (by decide) (by decide) 0 (by decide) "a" (by decide) (by decide)
  exact ⟨h.1, h.2 1 (by decide) (by decide) "b" (by decide)⟩

/-- Predicate: `msg` mentions the workflow name `w` (i.e. `w` occurs as a substring,
via the underlying character lists). -/
def mentionsName (msg w : String) : Prop := w.data <:+: msg.data

instance (msg w : String) : Decidable (mentionsName msg w) := by
  unfold mentionsName
  infer_instance

/-- Steps for the C5 runs: one group with two workflows. -/
def c5steps : StepMap := buildWorkflowSteps { workflows := [("a", 1), ("b", 1)] }

/-- Outcome oracle for the C5 runs: both workflows fail (with messages
that do not contain the letter b). -/
def c5outcome : String → WorkflowResult := fun n =>
  if n = "a" then { status := WorkflowStatus.FAILED, error_message := some "afail" }
  else { status := WorkflowStatus.FAILED, error_message := some "xfail" }

/-- C5 counterexample.  Sequential run of the group `["a", "b"]` where
`a` fails: the orchestrator raises while sibling `b` is still `PENDING` —
the group did not finish draining and `b` was skipped, contradicting the
claim.  Parallel run where both `a` and `b` fail: `b` ends `FAILED`, yet
the raised condition is exactly `Workflow a crashed: Workflow a failed:
afail`, which does not name the failed workflow `b` — contradicting
"names every failed workflow of that group". -/
theorem wave_failure_claim_cex :
    (statusOf (orchExecute c5steps [["a", "b"]] false c5outcome (fun l => l)).steps "b" =
        WorkflowStepStatus.PENDING ∧
      (orchExecute c5steps [["a", "b"]] false c5outcome (fun l => l)).overall_status =
        WorkflowStepStatus.FAILED) ∧
    ((orchExecute c5steps [["a", "b"]] true c5outcome (fun l => l)).raisedMsg =
        some "Workflow a crashed: Workflow a failed: afail" ∧
      statusOf (orchExecute c5steps [["a", "b"]] true c5outcome (fun l => l)).steps "b" =
        WorkflowStepStatus.FAILED ∧
      ¬ mentionsName "Workflow a crashed: Workflow a failed: afail" "b") :=
  ⟨⟨by decide, by decide⟩, by decide, by decide, by decide⟩

/-- A sequential group run aborts at the first failing member: the
raised message names (only) that member, and the members after it are
left untouched. -/
theorem seqGroup_first_failure (outcome : String → WorkflowResult) :
    ∀ (pre post : List String) (n : String) (steps : StepMap),
      (∀ m ∈ pre, (outcome m).success = true) → (outcome n).success = false →
      (seqGroup outcome (pre ++ n :: post) steps).2 =
        Except.error (seqFailMsg n (msgOr (outcome n).error_message)) ∧
      ∀ m ∈ post, m ≠ n → ¬ m ∈ pre →
        statusOf ((seqGroup outcome (pre ++ n :: post) steps).1) m = statusOf steps m := by
  intro pre
  induction pre with
  | nil =>
    intro post n steps _ hf
    simp only [List.nil_append, seqGroup, execWorkflowStep, hf, Bool.false_eq_true, if_false]
    refine ⟨trivial, ?_⟩
    intro m _ hmn _
    exact statusOf_updStep_ne _ _ _ _ hmn
  | cons p pre' ih =>
    intro post n steps hpre hf
    have hp : (outcome p).success = true := hpre p (List.mem_cons_self p pre')
    simp only [List.cons_append, seqGroup, execWorkflowStep, hp, if_true, List.append_eq]
    have ih' := ih post n (updStep steps p (stepAfterOutcome (outcome p)))
      (fun m hm => hpre m (List.mem_cons_of_mem p hm)) hf
    constructor
    · rw [ih'.1]
      rfl
    · intro m hm hmn hmp
      have hmp' : ¬ m ∈ pre' := fun hc => hmp (List.mem_cons_of_mem p hc)
      have hmpp : m ≠ p := fun hc => hmp (hc ▸ List.mem_cons_self p pre')
      rw [ih'.2 m hm hmn hmp', statusOf_updStep_ne _ _ _ _ hmpp]

/-- The first member of a completion order whose outcome failed — the
workflow the parallel raise names. -/
def firstFailing (outcome : String → WorkflowResult) : List String → Option String
  | [] => none
  | n :: rest => if (outcome n).success then firstFailing outcome rest else some n

/-- The parallel result scan raises exactly at the first failure in the
completion order, naming only that workflow. -/
theorem parScan_firstFailing (outcome : String → WorkflowResult) :
    ∀ (os : List String) (acc : Nat) (nf : String),
      firstFailing outcome os = some nf →
      parScan outcome os acc =
        Except.error (parCrashMsg nf (seqFailMsg nf (msgOr (outcome nf).error_message))) := by
  intro os
  induction os with
  | nil => intro acc nf h; cases h
  | cons n rest ih =>
    intro acc nf h
    simp only [firstFailing] at h
    simp only [parScan]
    cases hs : (outcome n).success with
    | true =>
      simp only [hs, if_true] at h ⊢
      exact ih _ nf h
    | false =>
      simp only [hs, Bool.false_eq_true, if_false] at h ⊢
      obtain rfl := Option.some.inj h
      rfl

/-- C5 amended: when a step of a group fails, (parallel mode) the wave
always drains — every member of the group reaches the terminal state
matching its own outcome before the orchestrator raises — but the raised
condition names only the first failed workflow in completion order; and
(sequential mode) the orchestrator raises at the first failed member,
naming only it, and the members after it in the group are never started. -/
theorem group_failure_behaviour (outcome : String → WorkflowResult)
    (ordfn : List String → List String) (group : List String) (steps : StepMap)
    (hnd : group.Nodup) (hcov : ∀ m ∈ group, ((steps.lookup m)).isSome = true) :
    (∀ m ∈ group, statusOf ((parGroup outcome ordfn group steps).1) m =
      (if (outcome m).success then WorkflowStepStatus.COMPLETED
        else WorkflowStepStatus.FAILED)) ∧
    (∀ nf, firstFailing outcome (ordfn group) = some nf →
      (parGroup outcome ordfn group steps).2 =
        Except.error (parCrashMsg nf (seqFailMsg nf (msgOr (outcome nf).error_message)))) ∧
    (∀ pre post nf, group = pre ++ nf :: post →
      (∀ m ∈ pre, (outcome m).success = true) → (outcome nf).success = false →
      (seqGroup outcome group steps).2 =
        Except.error (seqFailMsg nf (msgOr (outcome nf).error_message)) ∧
      ∀ m ∈ post, statusOf ((seqGroup outcome group steps).1) m = statusOf steps m) := by
  refine ⟨parFold_status outcome group steps hnd hcov, ?_, ?_⟩
  · intro nf h
    exact parScan_firstFailing outcome (ordfn group) 0 nf h
  · intro pre post nf hg hpre hf
    subst hg
    obtain ⟨hp1, hp2, hdisj⟩ := List.nodup_append.mp hnd
    have hnfpost : ¬ nf ∈ post := (List.nodup_cons.mp hp2).1
    have h := seqGroup_first_failure outcome pre post nf steps hpre hf
    refine ⟨h.1, ?_⟩
    intro m hm
    have hmn : m ≠ nf := fun hc => hnfpost (hc ▸ hm)
    have hmp : ¬ m ∈ pre := fun hc =>
      hdisj hc (List.mem_cons_of_mem nf hm)
    exact h.2 m hm hmn hmp

/-- Witness for the amended C5 at the concrete group `["a", "b"]` with
both outcomes failing: in parallel mode `b` still reaches `FAILED`
(drained), and in sequential mode the raise names exactly `a`. -/
theorem group_failure_behaviour_witness :
    statusOf ((parGroup c5outcome (fun l => l) ["a", "b"] c5steps).1) "b" =
      WorkflowStepStatus.FAILED ∧
    (seqGroup c5outcome ["a", "b"] c5steps).2 =
      Except.error (seqFailMsg "a" "afail") := by
  have h := group_failure_behaviour c5outcome (fun l => l) ["a", "b"] c5steps
    (by decide) (by decide)
  constructor
  · have h1 := h.1 "b" (by decide)
    have h2 : (c5outcome "b").success = false := by decide
    rw [h2] at h1
    simpa using h1
  · have h3 := h.2.2 [] ["b"] "a" rfl (by intro m hm; cases hm) (by decide)
    exact h3.1

/-! ### `DatasetWorkflow.execute` (claim C9) -/

/-- Model of `summary["execution_summary"]["total_records_generated"]`
(dataset_orchestrator.py lines 580-586): the sum of
`records_generated` over steps with a successful result. -/
def totalRecordsGenerated (steps : StepMap) : Int :=
  (steps.map (fun p =>
    match p.2.result with
    | some r => if r.success then r.records_generated else 0
    | none => 0)).sum

/-- Model of `summary["performance_metrics"]["workflows_failed"]`
(dataset_orchestrator.py lines 646-650). -/
def workflowsFailed (steps : StepMap) : Nat :=
  (steps.filter (fun p => decide (p.2.status = WorkflowStepStatus.FAILED))).length

/-- Model of `DatasetWorkflow.execute` (dataset_orchestrator.py lines 719-785).

The `try` block runs, in order: `self.setup_database()` (`setupErr`
oracle), `self.orchestrator.execute()` (which never raises — it catches
its own exceptions into the summary, modelled by `run`), then the
metadata write `self.execute_batch(metadata_batch, is_first_batch=True)`
(`metaErr` oracle).  Any exception among these is caught by the `except`
branch, which returns a `FAILED` result carrying `str(e)` — including an
exception from the metadata write, even when the orchestrator run itself
completed.  Otherwise the result is built from the orchestrator summary.
`t0`/`t1` are the `time.time()` readings at entry and at result
construction. -/
def dwExecute (setupErr : Option String) (run : OrchRun) (metaErr : Option String)
    (t0 t1 : Int) : WorkflowResult :=
  match setupErr with
  | some e =>
    { status := WorkflowStatus.FAILED, execution_time := t1 - t0,
      error_message := some e }
  | none =>
    match metaErr with
    | some e =>
      { status := WorkflowStatus.FAILED, execution_time := t1 - t0,
        error_message := some e }
    | none =>
      if run.overall_status = WorkflowStepStatus.COMPLETED then
        { status := WorkflowStatus.COMPLETED,
          records_generated := totalRecordsGenerated run.steps,
          records_stored := totalRecordsGenerated run.steps,
          execution_time := t1 - t0 }
      else
        { status := WorkflowStatus.FAILED,
          records_generated := totalRecordsGenerated run.steps,
          records_stored := totalRecordsGenerated run.steps,
          execution_time := t1 - t0,
          error_message := some (toString (workflowsFailed run.steps) ++
            " workflow(s) failed during dataset generation") }

/-- A completed orchestrator run used in the C9 counterexample. -/
def c9run : OrchRun :=
  { steps := [("companies",
      { workflow_name := "companies", target_records := 5,
        status := WorkflowStepStatus.COMPLETED,
        result := some { status := WorkflowStatus.COMPLETED, records_generated := 5 } })],
    overall_status := WorkflowStepStatus.COMPLETED, raisedMsg := none }

/-- C9 counterexample: the orchestrator run completed, yet a failing
metadata write alone turns the returned result into `FAILED` (carrying
the metadata write's message), while the identical run with a succeeding
metadata write returns `COMPLETED` — the outcome is not independent of
the metadata write, contradicting the claim. -/
theorem metadata_write_best_effort_cex :
    (dwExecute none c9run (some "disk full") 0 1).status = WorkflowStatus.FAILED ∧
    (dwExecute none c9run (some "disk full") 0 1).error_message = some "disk full" ∧
    (dwExecute none c9run none 0 1).status = WorkflowStatus.COMPLETED :=
  ⟨by decide, by decide, by decide⟩

/-- C9 amended: a `DatasetWorkflow.execute` call whose metadata write
raises returns a `FAILED` result carrying exactly the metadata write's
exception message — even when the orchestrator run completed — and only
when the metadata write (and setup) succeed does the result status
reflect the orchestrator's overall status. -/
theorem metadata_write_failure_fails_result (run : OrchRun) (e : String) (t0 t1 : Int) :
    (dwExecute none run (some e) t0 t1).status = WorkflowStatus.FAILED ∧
    (dwExecute none run (some e) t0 t1).error_message = some e ∧
    ((dwExecute none run none t0 t1).status = WorkflowStatus.COMPLETED ↔
      run.overall_status = WorkflowStepStatus.COMPLETED) := by
  refine ⟨rfl, rfl, ?_⟩
  unfold dwExecute
  by_cases h : run.overall_status = WorkflowStepStatus.COMPLETED
  · simp [h]
  · simp [h]
